import Mathlib

/-!
Shallow embedding of the fetch-and-filter pipeline of the `external-prs`
application: the paginated pull-request fetcher (`fetchPullRequests`), the
pure author filter (`filterPRs`), and the excluded-author set editor
(`addExcludedAuthor` / `removeExcludedAuthor`), together with the static
configuration defaults from `config.ts`.
-/

/-- A login/avatar pair, as it appears in the `user`, `assignees` and
`requested_reviewers` fields of a pull-request record. -/
structure PRUser where
  login : String
  avatar_url : String
deriving DecidableEq, Repr

/-- A label attached to a pull request. -/
structure PRLabel where
  name : String
  color : String
deriving DecidableEq, Repr

/-- The `PullRequest` record shape consumed by the application. -/
structure PullRequest where
  id : Nat
  number : Nat
  title : String
  user : PRUser
  html_url : String
  created_at : String
  updated_at : String
  state : String
  labels : List PRLabel
  assignees : List PRUser
  requested_reviewers : List PRUser
deriving DecidableEq, Repr

/-- Static configuration: default excluded-author list from `config.ts`. -/
def config.excludedAuthors : List String :=
  ["jonsamp", "HubertBer", "douglowder", "vonovak", "Kudo", "tsapeta",
   "kitten", "intergalacticspacehighway", "Wenszel", "hassankhan", "jakex7",
   "behenate", "aleqsio", "alanjhughes", "Ubax", "gabrieldonadel",
   "amandeepmittal", "lukmccall", "chrfalch", "kadikraman", "sjchmiela",
   "byCedric", "EvanBacon", "dependabot[bot]", "krystofwoldrich", "hirbod",
   "brentvatne", "quinlanj", "kosmydel", "barthap"]

/-- Static configuration: page size from `config.ts`. -/
def config.perPage : Nat := 100

/-- Static configuration: maximum page count from `config.ts`. -/
def config.maxPages : Nat := 5

/-- The filter step: keep the pull requests whose author login is not in the
excluded-author list (`allPrs.filter((pr) => !excludedAuthors.includes(pr.user.login))`). -/
def filterPRs (allPrs : List PullRequest) (excludedAuthors : List String) :
    List PullRequest :=
  allPrs.filter (fun pr => !(excludedAuthors.contains pr.user.login))

/-- Model of JavaScript `String.prototype.trim` on the character-list view of
a string: drop whitespace characters from both ends. -/
def jsTrim (s : String) : String :=
  ⟨((s.data.dropWhile Char.isWhitespace).reverse.dropWhile Char.isWhitespace).reverse⟩

/-- The add operation of the excluded-author editor: trim the input; if the
trimmed value is non-empty and not already present, append it and clear the
input field; otherwise leave both unchanged.  Returns the new
(excludedAuthors, newAuthor) pair. -/
def addExcludedAuthor (excludedAuthors : List String) (newAuthor : String) :
    List String × String :=
  let trimmedAuthor := jsTrim newAuthor
  if trimmedAuthor ≠ "" ∧ ¬ (excludedAuthors.contains trimmedAuthor) then
    (excludedAuthors ++ [trimmedAuthor], "")
  else
    (excludedAuthors, newAuthor)

/-- The remove operation of the excluded-author editor:
`excludedAuthors.filter((a) => a !== author)`. -/
def removeExcludedAuthor (excludedAuthors : List String) (author : String) :
    List String :=
  excludedAuthors.filter (fun a => a != author)

/-- Response of the paginated listing endpoint for one page: an ordered
collection of pull-request records on success, or a status code plus reason
text on failure. -/
inductive PageResponse where
  | ok (data : List PullRequest)
  | err (status : Nat) (statusText : String)
deriving DecidableEq, Repr

/-- Request headers built for every page request: the Accept header always,
and the Authorization header when the GITHUB_TOKEN environment variable holds
a non-empty (truthy) value. -/
def buildHeaders (githubToken : Option String) : List (String × String) :=
  let headers := [("Accept", "application/vnd.github.v3+json")]
  match githubToken with
  | none => headers
  | some t => if t = "" then headers else headers ++ [("Authorization", "token " ++ t)]

/-- One HTTP request issued by the fetcher: the page number and the headers
it carried. -/
structure Request where
  page : Nat
  headers : List (String × String)
deriving DecidableEq, Repr

/-- Observable outcome of a fetch run: the requests issued in order, the
successive values passed to `setAllPrs` (the incrementally visible
accumulated collection), and the final result. -/
structure FetchOutcome where
  requests : List Request
  snapshots : List (List PullRequest)
  result : Except String (List PullRequest)
deriving Repr

/-- The body of the `for (let page = 1; page <= config.maxPages; page++)`
loop of `fetchPullRequests`, with `fuel` the number of remaining iterations
(`maxPages - page + 1`) and `acc` the `fetchedPrs` accumulator.  A non-ok
response throws; an empty page breaks out of the loop; a non-empty page is
appended to the accumulator which is then published via `setAllPrs`. -/
def fetchGo (token : Option String)
    (endpoint : Nat → List (String × String) → PageResponse) :
    Nat → Nat → List PullRequest → FetchOutcome
  | _, 0, acc => { requests := [], snapshots := [], result := .ok acc }
  | page, fuel + 1, acc =>
    let hdrs := buildHeaders token
    match endpoint page hdrs with
    | .err status statusText =>
      { requests := [⟨page, hdrs⟩], snapshots := [],
        result := .error ("GitHub API error: " ++ toString status ++ " " ++ statusText) }
    | .ok data =>
      if data.isEmpty then
        { requests := [⟨page, hdrs⟩], snapshots := [], result := .ok acc }
      else
        let acc2 := acc ++ data
        let rest := fetchGo token endpoint (page + 1) fuel acc2
        { requests := ⟨page, hdrs⟩ :: rest.requests,
          snapshots := acc2 :: rest.snapshots,
          result := rest.result }

/-- The whole `fetchPullRequests` operation: run the page loop from page 1
with an empty accumulator; on normal termination the loop is followed by one
more `setAllPrs(fetchedPrs)` (hence the extra final snapshot), while a thrown
error skips it. -/
def fetchPullRequests (token : Option String)
    (endpoint : Nat → List (String × String) → PageResponse)
    (maxPages : Nat) : FetchOutcome :=
  let o := fetchGo token endpoint 1 maxPages []
  match o.result with
  | .ok final => { o with snapshots := o.snapshots ++ [final] }
  | .error _ => o

/-- The component state relevant to fetching: the accumulated collection held
in the `allPrs` React state and the `error` state. -/
structure AppState where
  allPrs : List PullRequest
  error : Option String
deriving Repr

/-- Effect of one invocation of `fetchPullRequests` on the component state:
`setError(null)` at the start, each `setAllPrs` call replaces `allPrs` (so
after the run `allPrs` is the last published snapshot, or unchanged when no
page was published), and a caught error is stored in `error`. -/
def runFetch (st : AppState) (token : Option String)
    (endpoint : Nat → List (String × String) → PageResponse)
    (maxPages : Nat) : FetchOutcome × AppState :=
  let o := fetchPullRequests token endpoint maxPages
  match o.result with
  | .ok final => (o, { allPrs := final, error := none })
  | .error msg =>
    (o, { allPrs := (o.snapshots.getLast?).getD st.allPrs, error := some msg })

/-- Specification-side request count ("issues at most maxPages requests,
stops as soon as a page returns an empty collection"): over an endpoint whose
page `n` always succeeds with collection `p n`, the number of requests issued
starting at `page` with `fuel` loop iterations left. -/
def specRequestCount (p : Nat → List PullRequest) : Nat → Nat → Nat
  | _, 0 => 0
  | page, fuel + 1 =>
    if (p page).isEmpty then 1 else specRequestCount p (page + 1) fuel + 1

/-- Specification-side accumulated collection ("the concatenation, in page
order, of the non-empty pages fetched"): pages from `page` on, up to the
first empty page or the iteration cap `fuel`. -/
def specAccum (p : Nat → List PullRequest) : Nat → Nat → List PullRequest
  | _, 0 => []
  | page, fuel + 1 =>
    if (p page).isEmpty then [] else p page ++ specAccum p (page + 1) fuel

/-- Specification-side snapshot trace for an all-ok endpoint: after every
non-empty page the accumulator so far is published. -/
def specSnaps (p : Nat → List PullRequest) :
    Nat → Nat → List PullRequest → List (List PullRequest)
  | _, 0, _ => []
  | page, fuel + 1, acc =>
    if (p page).isEmpty then []
    else (acc ++ p page) :: specSnaps p (page + 1) fuel (acc ++ p page)

/-- The excluded-author sets reachable from the static configuration default
by sequences of add and remove operations. -/
inductive ExcludedReachable : List String → Prop where
  | init : ExcludedReachable config.excludedAuthors
  | add (E : List String) (s : String) :
      ExcludedReachable E → ExcludedReachable (addExcludedAuthor E s).1
  | remove (E : List String) (a : String) :
      ExcludedReachable E → ExcludedReachable (removeExcludedAuthor E a)

/-- A fixed pull-request record used as a concrete test fixture. -/
def dummyPR : PullRequest :=
  { id := 0, number := 1, title := "t", user := ⟨"ext", "a"⟩, html_url := "u",
    created_at := "c", updated_at := "up", state := "open", labels := [],
    assignees := [], requested_reviewers := [] }

/-- C1: the filter step returns exactly the records of `A` whose author login
is not in `E`, preserves the original relative order of retained records
(sublist of `A`), and is idempotent under re-application with the same `E`. -/
theorem filterPRs_correct (A : List PullRequest) (E : List String) :
    (filterPRs A E).Sublist A
    ∧ (∀ r, r ∈ filterPRs A E ↔ (r ∈ A ∧ r.user.login ∉ E))
    ∧ filterPRs (filterPRs A E) E = filterPRs A E := by
  refine ⟨List.filter_sublist A, fun r => ?_, ?_⟩
  · simp [filterPRs]
  · simp [filterPRs, List.filter_filter]

/-- C4: add first trims the input; it is a no-op on the excluded set when the
trimmed value is empty or already present, otherwise it appends the trimmed
value at the end; in particular adding "  alice  " has the same effect on the
set as adding "alice". -/
theorem addExcludedAuthor_correct (E : List String) (s : String) :
    (jsTrim s = "" → (addExcludedAuthor E s).1 = E)
    ∧ (jsTrim s ∈ E → (addExcludedAuthor E s).1 = E)
    ∧ (jsTrim s ≠ "" → jsTrim s ∉ E → (addExcludedAuthor E s).1 = E ++ [jsTrim s])
    ∧ (addExcludedAuthor E "  alice  ").1 = (addExcludedAuthor E "alice").1 := by
  refine ⟨fun h => ?_, fun h => ?_, fun h1 h2 => ?_, ?_⟩
  · simp [addExcludedAuthor, h]
  · simp [addExcludedAuthor, h]
  · simp [addExcludedAuthor, h1, h2]
  · have htr : jsTrim "  alice  " = jsTrim "alice" := by decide
    by_cases hc : ¬jsTrim "alice" = "" ∧ jsTrim "alice" ∉ E
    · simp [addExcludedAuthor, htr, hc.1, hc.2]
    · simp [addExcludedAuthor, htr, if_neg hc]

/-- C4 witness: adding a fresh login to a concrete set appends its trim. -/
theorem addExcludedAuthor_correct_witness :
    (addExcludedAuthor ["bob"] "alice").1 = ["bob"] ++ [jsTrim "alice"] :=
  (addExcludedAuthor_correct ["bob"] "alice").2.2.1 (by decide) (by decide)

/-- C5: remove keeps exactly the entries different from the given login, in
their original relative order, and is a no-op when the login is absent. -/
theorem removeExcludedAuthor_correct (E : List String) (a : String) :
    (removeExcludedAuthor E a).Sublist E
    ∧ (∀ x, x ∈ removeExcludedAuthor E a ↔ (x ∈ E ∧ x ≠ a))
    ∧ (a ∉ E → removeExcludedAuthor E a = E) := by
  refine ⟨List.filter_sublist E, fun x => ?_, fun h => ?_⟩
  · simp [removeExcludedAuthor]
  · exact List.filter_eq_self.mpr (fun x hx => bne_iff_ne.mpr (fun e => h (e ▸ hx)))

/-- C5 witness: removing an absent login from a concrete set is a no-op. -/
theorem removeExcludedAuthor_correct_witness :
    removeExcludedAuthor ["bob"] "alice" = ["bob"] :=
  (removeExcludedAuthor_correct ["bob"] "alice").2.2 (by decide)

/-- C9: every excluded-author set reachable from the configuration default by
add/remove operations has pairwise distinct entries; add either leaves the
set unchanged or appends at the end, and remove yields a sublist, so
surviving entries keep their insertion order. -/
theorem excludedAuthors_invariant :
    (∀ E, ExcludedReachable E → E.Nodup)
    ∧ (∀ E s, (addExcludedAuthor E s).1 = E ∨ (addExcludedAuthor E s).1 = E ++ [jsTrim s])
    ∧ (∀ E a, (removeExcludedAuthor E a).Sublist E) := by
  refine ⟨fun E h => ?_, fun E s => ?_, fun E a => List.filter_sublist E⟩
  · induction h with
    | init => decide
    | add E s hr ih =>
      by_cases hc : jsTrim s ≠ "" ∧ ¬ E.contains (jsTrim s) = true
      · have hnm : jsTrim s ∉ E := by simpa using hc.2
        have heq : (addExcludedAuthor E s).1 = E ++ [jsTrim s] := by
          simp [addExcludedAuthor, hc.1, hnm]
        rw [heq]
        refine List.Nodup.append ih (List.nodup_singleton _) ?_
        intro x hx hx2
        rw [List.mem_singleton] at hx2
        exact hnm (hx2 ▸ hx)
      · have heq : (addExcludedAuthor E s).1 = E := by
          simp only [addExcludedAuthor, if_neg hc]
        rw [heq]; exact ih
    | remove E a hr ih => exact (List.filter_sublist E).nodup ih
  · by_cases hc : jsTrim s ≠ "" ∧ ¬ E.contains (jsTrim s) = true
    · have hnm : jsTrim s ∉ E := by simpa using hc.2
      right; simp [addExcludedAuthor, hc.1, hnm]
    · left; simp only [addExcludedAuthor, if_neg hc]

/-- C9 witness: the configuration default itself is reachable and duplicate
free. -/
theorem excludedAuthors_invariant_witness : config.excludedAuthors.Nodup :=
  excludedAuthors_invariant.1 config.excludedAuthors ExcludedReachable.init

/-- C10: adding a fresh, already-trimmed, non-empty login and then removing
it returns the excluded set to exactly its original value. -/
theorem add_remove_identity (E : List String) (L : String)
    (htrim : jsTrim L = L) (hne : L ≠ "") (hmem : L ∉ E) :
    removeExcludedAuthor (addExcludedAuthor E L).1 L = E := by
  have hadd : (addExcludedAuthor E L).1 = E ++ [L] := by
    simp [addExcludedAuthor, htrim, hne, hmem]
  have hE : E.filter (fun a => a != L) = E :=
    List.filter_eq_self.mpr (fun x hx => bne_iff_ne.mpr (fun e => hmem (e ▸ hx)))
  simp [removeExcludedAuthor, hadd, List.filter_append, hE]

/-- C10 witness: add-then-remove of a concrete fresh login is the identity. -/
theorem add_remove_identity_witness :
    removeExcludedAuthor (addExcludedAuthor ["bob"] "alice").1 "alice" = ["bob"] :=
  add_remove_identity ["bob"] "alice" (by decide) (by decide) (by decide)

/-- specRequestCount never exceeds the remaining iteration budget. -/
theorem specRequestCount_le (p : Nat → List PullRequest) :
    ∀ (fuel page : Nat), specRequestCount p page fuel ≤ fuel := by
  intro fuel
  induction fuel with
  | zero => intro page; simp [specRequestCount]
  | succ f ih =>
    intro page
    by_cases h : (p page).isEmpty
    · simp [specRequestCount, h]
    · simp only [specRequestCount, if_neg h]
      exact Nat.succ_le_succ (ih (page + 1))

/-- Over an endpoint whose every page succeeds, the loop produces the
specification-side request list, snapshot trace and accumulator. -/
theorem fetchGo_all_ok (token : Option String) (p : Nat → List PullRequest)
    (fuel : Nat) : ∀ (page : Nat) (acc : List PullRequest),
    fetchGo token (fun n _ => .ok (p n)) page fuel acc =
      { requests := (List.range' page (specRequestCount p page fuel)).map
          (fun n => ⟨n, buildHeaders token⟩),
        snapshots := specSnaps p page fuel acc,
        result := .ok (acc ++ specAccum p page fuel) } := by
  induction fuel with
  | zero =>
    intro page acc
    simp [fetchGo, specRequestCount, specSnaps, specAccum]
  | succ f ih =>
    intro page acc
    by_cases h : (p page).isEmpty
    · simp [fetchGo, specRequestCount, specSnaps, specAccum, h, List.range']
    · simp [fetchGo, specRequestCount, specSnaps, specAccum, h, ih,
        List.range'_succ]

set_option maxRecDepth 100000 in
/-- C2: over any endpoint whose pages all succeed, the fetcher requests pages
sequentially from 1, issues at most `maxPages` requests, stops without error
(at the first empty page or the cap), and on success accumulates the
concatenation in page order of the non-empty pages fetched; in particular for
pages of sizes [100, 100, 0] it stops after the third page with 200 records,
and for never-empty pages with maxPages = 5 it issues exactly 5 requests. -/
theorem fetchPullRequests_pagination :
    (∀ (token : Option String) (p : Nat → List PullRequest) (maxPages : Nat),
      (fetchPullRequests token (fun n _ => .ok (p n)) maxPages).requests.map Request.page
          = List.range' 1 (specRequestCount p 1 maxPages)
        ∧ specRequestCount p 1 maxPages ≤ maxPages
        ∧ (fetchPullRequests token (fun n _ => .ok (p n)) maxPages).result
            = .ok (specAccum p 1 maxPages))
    ∧ (fetchPullRequests none
        (fun n _ => .ok (if n ≤ 2 then List.replicate 100 dummyPR else []))
        5).requests.map Request.page = [1, 2, 3]
    ∧ (fetchPullRequests none
        (fun n _ => .ok (if n ≤ 2 then List.replicate 100 dummyPR else []))
        5).result = .ok (List.replicate 200 dummyPR)
    ∧ (fetchPullRequests none (fun _ _ => .ok (List.replicate 100 dummyPR))
        5).requests.map Request.page = [1, 2, 3, 4, 5]
    ∧ (fetchPullRequests none (fun _ _ => .ok (List.replicate 100 dummyPR))
        5).result = .ok (List.replicate 500 dummyPR) := by
  refine ⟨fun token p maxPages => ?_, by rfl, by rfl, by rfl, by rfl⟩
  have h := fetchGo_all_ok token p maxPages 1 []
  refine ⟨?_, specRequestCount_le p maxPages 1, ?_⟩
  · simp [fetchPullRequests, h, List.map_map, Function.comp_def]
  · simp [fetchPullRequests, h]

/-- Decomposition of the page loop: when the `k` pages starting at `page` all
succeed with non-empty collections, the run consists of those `k` requests
and the corresponding published snapshots, followed by the run from
`page + k` on the grown accumulator. -/
theorem fetchGo_cleanPages (token : Option String)
    (e : Nat → List (String × String) → PageResponse)
    (p : Nat → List PullRequest) :
    ∀ (k fuel page : Nat) (acc : List PullRequest), k ≤ fuel →
    (∀ j, page ≤ j → j < page + k →
        e j (buildHeaders token) = .ok (p j) ∧ (p j).isEmpty = false) →
    fetchGo token e page fuel acc =
      { requests := (List.range' page k).map
            (fun n => ⟨n, buildHeaders token⟩)
            ++ (fetchGo token e (page + k) (fuel - k)
                (acc ++ (List.range' page k).flatMap p)).requests,
        snapshots := (List.range k).map
            (fun i => acc ++ (List.range' page (i + 1)).flatMap p)
            ++ (fetchGo token e (page + k) (fuel - k)
                (acc ++ (List.range' page k).flatMap p)).snapshots,
        result := (fetchGo token e (page + k) (fuel - k)
            (acc ++ (List.range' page k).flatMap p)).result } := by
  intro k
  induction k with
  | zero => intro fuel page acc _ _; simp
  | succ k ih =>
    intro fuel page acc hk hclean
    obtain ⟨f, rfl⟩ : ∃ f, fuel = f + 1 := ⟨fuel - 1, by omega⟩
    obtain ⟨hok, hne⟩ := hclean page (Nat.le_refl page) (by omega)
    have hstep : fetchGo token e page (f + 1) acc =
        { requests := ⟨page, buildHeaders token⟩ ::
            (fetchGo token e (page + 1) f (acc ++ p page)).requests,
          snapshots := (acc ++ p page) ::
            (fetchGo token e (page + 1) f (acc ++ p page)).snapshots,
          result := (fetchGo token e (page + 1) f (acc ++ p page)).result } := by
      rw [fetchGo]
      simp only [hok, hne]
      rfl
    have hrec := ih f (page + 1) (acc ++ p page) (by omega)
      (fun j h1 h2 => hclean j (by omega) (by omega))
    rw [hstep, hrec]
    have hpk : page + 1 + k = page + (k + 1) := by omega
    have hfk : f - k = f + 1 - (k + 1) := by omega
    have hacc : (acc ++ p page) ++ (List.range' (page + 1) k).flatMap p
        = acc ++ (List.range' page (k + 1)).flatMap p := by
      rw [List.range'_succ, List.flatMap_cons, List.append_assoc]
    have hsnap : (List.range (k + 1)).map
          (fun i => acc ++ (List.range' page (i + 1)).flatMap p)
        = (acc ++ p page) :: (List.range k).map
            (fun i => (acc ++ p page) ++ (List.range' (page + 1) (i + 1)).flatMap p) := by
      rw [List.range_succ_eq_map, List.map_cons, List.map_map]
      congr 1
      · simp [List.range'_succ]
      · refine List.map_congr_left ?_
        intro i _
        simp [Function.comp_def, List.range'_succ, List.flatMap_cons,
          List.append_assoc]
    rw [hpk, hfk, hacc, hsnap]
    simp [List.range'_succ, List.flatMap_cons, List.append_assoc]

/-- C3: if the pages before `k` succeed with non-empty collections and page
`k` responds with a non-success status, the fetch fails with an error message
carrying the numeric status code and the reason text, and it requests exactly
pages 1 through `k` — no request is issued for any page after `k`. -/
theorem fetchPullRequests_error_abort (token : Option String)
    (e : Nat → List (String × String) → PageResponse)
    (p : Nat → List PullRequest) (k maxPages status : Nat) (statusText : String)
    (hk : 1 ≤ k) (hmax : k ≤ maxPages)
    (hclean : ∀ j, 1 ≤ j → j < k →
        e j (buildHeaders token) = .ok (p j) ∧ (p j).isEmpty = false)
    (herr : e k (buildHeaders token) = .err status statusText) :
    (fetchPullRequests token e maxPages).result
        = .error ("GitHub API error: " ++ toString status ++ " " ++ statusText)
    ∧ (fetchPullRequests token e maxPages).requests.map Request.page
        = List.range' 1 k
    ∧ ∀ r ∈ (fetchPullRequests token e maxPages).requests, r.page ≤ k := by
  obtain ⟨kk, rfl⟩ : ∃ kk, k = kk + 1 := ⟨k - 1, by omega⟩
  have hpre := fetchGo_cleanPages token e p kk maxPages 1 [] (by omega)
    (fun j h1 h2 => hclean j h1 (by omega))
  rw [Nat.add_comm 1 kk] at hpre
  obtain ⟨m, hm⟩ : ∃ m, maxPages - kk = m + 1 := ⟨maxPages - kk - 1, by omega⟩
  rw [hm] at hpre
  have hrest : fetchGo token e (kk + 1) (m + 1)
      ([] ++ (List.range' 1 kk).flatMap p)
      = { requests := [⟨kk + 1, buildHeaders token⟩], snapshots := [],
          result := .error ("GitHub API error: " ++ toString status ++ " "
            ++ statusText) } := by
    rw [fetchGo]
    simp only [herr]
  rw [hrest] at hpre
  have hfp : fetchPullRequests token e maxPages
      = { requests := (List.range' 1 kk).map
            (fun n => ⟨n, buildHeaders token⟩) ++ [⟨kk + 1, buildHeaders token⟩],
          snapshots := (List.range kk).map
            (fun i => [] ++ (List.range' 1 (i + 1)).flatMap p) ++ [],
          result := .error ("GitHub API error: " ++ toString status ++ " "
            ++ statusText) } := by
    simp only [fetchPullRequests, hpre]
  have hmap : (fetchPullRequests token e maxPages).requests.map Request.page
      = List.range' 1 (kk + 1) := by
    rw [hfp]
    simp [List.map_append, List.map_map, Function.comp_def, List.range'_concat,
      Nat.add_comm]
  refine ⟨by rw [hfp], hmap, ?_⟩
  intro r hr
  have hmem : r.page ∈ List.range' 1 (kk + 1) := by
    rw [← hmap]
    exact List.mem_map.mpr ⟨r, hr, rfl⟩
  have := List.mem_range'_1.mp hmem
  omega

/-- C3 witness: a concrete endpoint that fails with 403 Forbidden on page 2;
the fetch surfaces "403" in the error and requests only pages 1 and 2. -/
theorem fetchPullRequests_error_abort_witness :
    (fetchPullRequests none
        (fun n _ => if n = 1 then .ok [dummyPR] else .err 403 "Forbidden")
        5).result
      = .error ("GitHub API error: " ++ toString 403 ++ " " ++ "Forbidden")
    ∧ (fetchPullRequests none
        (fun n _ => if n = 1 then .ok [dummyPR] else .err 403 "Forbidden")
        5).requests.map Request.page = List.range' 1 2 := by
  have h := fetchPullRequests_error_abort none
    (fun n _ => if n = 1 then .ok [dummyPR] else .err 403 "Forbidden")
    (fun _ => [dummyPR]) 2 5 403 "Forbidden" (by omega) (by omega)
    (fun j h1 h2 => by
      have hj : j = 1 := by omega
      subst hj
      exact ⟨rfl, rfl⟩)
    rfl
  exact ⟨h.1, h.2.1⟩

/-- C6: after the first `k` pages have resolved successfully with non-empty
collections, the `k`-th published snapshot is exactly the concatenation of
pages 1 through `k` — so it is visible before page `k + 1` resolves; and when
page `k + 1` then fails, the accumulated collection retained in the component
state is still that concatenation, containing every record of pages 1 through
`k` — an error never discards already-fetched pages. -/
theorem fetch_incremental_visibility (st : AppState) (token : Option String)
    (e : Nat → List (String × String) → PageResponse)
    (p : Nat → List PullRequest) (k maxPages : Nat)
    (hk : 1 ≤ k) (hmax : k ≤ maxPages)
    (hclean : ∀ j, 1 ≤ j → j ≤ k →
        e j (buildHeaders token) = .ok (p j) ∧ (p j).isEmpty = false) :
    (fetchPullRequests token e maxPages).snapshots[k - 1]?
        = some ((List.range' 1 k).flatMap p)
    ∧ (∀ status statusText, k < maxPages →
        e (k + 1) (buildHeaders token) = .err status statusText →
        (runFetch st token e maxPages).2.allPrs = (List.range' 1 k).flatMap p
        ∧ ∀ j r, 1 ≤ j → j ≤ k → r ∈ p j →
            r ∈ (runFetch st token e maxPages).2.allPrs) := by
  have hpre := fetchGo_cleanPages token e p k maxPages 1 [] hmax
    (fun j h1 h2 => hclean j h1 (by omega))
  have hlen : ((List.range k).map
      (fun i => ([] : List PullRequest) ++ (List.range' 1 (i + 1)).flatMap p)).length
      = k := by simp
  have hidx : ((List.range k).map
      (fun i => ([] : List PullRequest) ++ (List.range' 1 (i + 1)).flatMap p))[k - 1]?
      = some ((List.range' 1 k).flatMap p) := by
    rw [List.getElem?_map, List.getElem?_range (by omega)]
    have hkk : k - 1 + 1 = k := by omega
    simp [hkk]
  have hsnapGo : (fetchGo token e 1 maxPages []).snapshots[k - 1]?
      = some ((List.range' 1 k).flatMap p) := by
    simp only [hpre]
    rw [List.getElem?_append_left
      (by simp only [List.length_map, List.length_range]; omega)]
    exact hidx
  constructor
  · rcases hres : (fetchGo token e 1 maxPages []).result with msg | final
    · simp only [fetchPullRequests, hres]
      exact hsnapGo
    · have hlen2 : k - 1 < (fetchGo token e 1 maxPages []).snapshots.length := by
        rw [hpre]
        simp only [List.length_append, hlen]
        omega
      simp only [fetchPullRequests, hres]
      rw [List.getElem?_append_left hlen2]
      exact hsnapGo
  · intro status statusText hlt herr
    obtain ⟨m, hm⟩ : ∃ m, maxPages - k = m + 1 := ⟨maxPages - k - 1, by omega⟩
    rw [hm, Nat.add_comm 1 k] at hpre
    have hrest : fetchGo token e (k + 1) (m + 1)
        ([] ++ (List.range' 1 k).flatMap p)
        = { requests := [⟨k + 1, buildHeaders token⟩], snapshots := [],
            result := .error ("GitHub API error: " ++ toString status ++ " "
              ++ statusText) } := by
      rw [fetchGo]
      simp only [herr]
    rw [hrest] at hpre
    have hall : (runFetch st token e maxPages).2.allPrs
        = (List.range' 1 k).flatMap p := by
      simp only [runFetch, fetchPullRequests, hpre]
      rw [List.append_nil, List.getLast?_eq_getElem?]
      rw [hlen, hidx]
      rfl
    refine ⟨hall, fun j r h1 h2 hr => ?_⟩
    rw [hall]
    exact List.mem_flatMap.mpr ⟨j, List.mem_range'_1.mpr ⟨h1, by omega⟩, hr⟩

/-- C6 witness: with a concrete endpoint whose page 1 succeeds and page 2
fails, page 1's record is in the first snapshot and survives the error in the
component state. -/
theorem fetch_incremental_visibility_witness :
    (fetchPullRequests none
        (fun n _ => if n = 1 then .ok [dummyPR] else .err 500 "Server Error")
        5).snapshots[0]? = some [dummyPR]
    ∧ (runFetch ⟨[], none⟩ none
        (fun n _ => if n = 1 then .ok [dummyPR] else .err 500 "Server Error")
        5).2.allPrs = [dummyPR] := by
  have h := fetch_incremental_visibility ⟨[], none⟩ none
    (fun n _ => if n = 1 then .ok [dummyPR] else .err 500 "Server Error")
    (fun _ => [dummyPR]) 1 5 (by omega) (by omega)
    (fun j h1 h2 => by
      have hj : j = 1 := by omega
      subst hj
      exact ⟨rfl, rfl⟩)
  have h2 := (h.2 500 "Server Error" (by omega) rfl).1
  have h1 := h.1
  simp only [List.range'_one, List.flatMap_cons, List.flatMap_nil,
    List.append_nil] at h1 h2
  exact ⟨h1, h2⟩

/-- The loop always requests consecutive pages starting at its start page. -/
theorem fetchGo_requests_pages (token : Option String)
    (e : Nat → List (String × String) → PageResponse) :
    ∀ (fuel page : Nat) (acc : List PullRequest),
    (fetchGo token e page fuel acc).requests.map Request.page
      = List.range' page (fetchGo token e page fuel acc).requests.length := by
  intro fuel
  induction fuel with
  | zero => intro page acc; simp [fetchGo]
  | succ f ih =>
    intro page acc
    simp only [fetchGo]
    cases he : e page (buildHeaders token) with
    | err status statusText => simp [List.range']
    | ok data =>
      by_cases hd : data.isEmpty
      · simp [hd, List.range']
      · simp [hd, ih, List.range'_succ]

/-- The requests of the whole operation are those of the loop. -/
theorem fetchPullRequests_requests (token : Option String)
    (e : Nat → List (String × String) → PageResponse) (maxPages : Nat) :
    (fetchPullRequests token e maxPages).requests
      = (fetchGo token e 1 maxPages []).requests := by
  cases h : (fetchGo token e 1 maxPages []).result <;>
    simp [fetchPullRequests, h]

/-- C7: every invocation of the fetch operation restarts the whole pagination
from page 1 with a fresh empty accumulator — its observable outcome is
independent of the prior component state — and on success the previously
accumulated collection is replaced by exactly the newly fetched records. -/
theorem fetch_restart (st st' : AppState) (token : Option String)
    (e : Nat → List (String × String) → PageResponse) (maxPages : Nat) :
    (runFetch st token e maxPages).1 = (runFetch st' token e maxPages).1
    ∧ (runFetch st token e maxPages).1.requests.map Request.page
        = List.range' 1 (runFetch st token e maxPages).1.requests.length
    ∧ (∀ final, (runFetch st token e maxPages).1.result = .ok final →
        (runFetch st token e maxPages).2.allPrs = final) := by
  have h1 : ∀ s : AppState,
      (runFetch s token e maxPages).1 = fetchPullRequests token e maxPages := by
    intro s
    cases h : (fetchPullRequests token e maxPages).result <;> simp [runFetch, h]
  refine ⟨(h1 st).trans (h1 st').symm, ?_, fun final hfin => ?_⟩
  · rw [h1 st, fetchPullRequests_requests]
    exact fetchGo_requests_pages token e maxPages 1 []
  · rw [h1 st] at hfin
    simp [runFetch, hfin]

/-- C7 witness: after a fetch over an endpoint with no open pull requests,
the previously accumulated record is discarded and replaced. -/
theorem fetch_restart_witness :
    (runFetch ⟨[dummyPR], some "old"⟩ none (fun _ _ => .ok []) 5).2.allPrs
      = [] :=
  (fetch_restart ⟨[dummyPR], some "old"⟩ ⟨[], none⟩ none
    (fun _ _ => .ok []) 5).2.2 [] rfl

/-- Every request issued by the loop carries exactly the built headers. -/
theorem fetchGo_headers (token : Option String)
    (e : Nat → List (String × String) → PageResponse) :
    ∀ (fuel page : Nat) (acc : List PullRequest),
    ∀ r ∈ (fetchGo token e page fuel acc).requests,
      r.headers = buildHeaders token := by
  intro fuel
  induction fuel with
  | zero => intro page acc r hr; simp [fetchGo] at hr
  | succ f ih =>
    intro page acc r hr
    simp only [fetchGo] at hr
    cases he : e page (buildHeaders token) with
    | err status statusText =>
      rw [he] at hr
      simp at hr
      rw [hr]
    | ok data =>
      rw [he] at hr
      by_cases hd : data.isEmpty
      · simp [hd] at hr
        rw [hr]
      · simp only [hd, Bool.false_eq_true, if_false, List.mem_cons] at hr
        rcases hr with hr | hr
        · rw [hr]
        · exact ih (page + 1) (acc ++ data) r hr

/-- Over an endpoint that does not inspect headers, the published snapshots
and the result of the loop do not depend on the credential. -/
theorem fetchGo_token_irrelevant (token : Option String)
    (e : Nat → List (String × String) → PageResponse)
    (hins : ∀ n h h', e n h = e n h') :
    ∀ (fuel page : Nat) (acc : List PullRequest),
    (fetchGo token e page fuel acc).snapshots
        = (fetchGo none e page fuel acc).snapshots
    ∧ (fetchGo token e page fuel acc).result
        = (fetchGo none e page fuel acc).result := by
  intro fuel
  induction fuel with
  | zero => intro page acc; exact ⟨rfl, rfl⟩
  | succ f ih =>
    intro page acc
    have he : e page (buildHeaders token) = e page (buildHeaders none) :=
      hins page _ _
    simp only [fetchGo, he]
    cases h2 : e page (buildHeaders none) with
    | err status statusText => exact ⟨rfl, rfl⟩
    | ok data =>
      by_cases hd : data.isEmpty
      · simp [hd]
      · simp only [hd, Bool.false_eq_true, if_false]
        exact ⟨(ih (page + 1) (acc ++ data)).1 ▸ rfl,
          (ih (page + 1) (acc ++ data)).2 ▸ rfl⟩

/-- C8: every page request carries exactly the built headers — which include
the authorization header with the bearer credential whenever a non-empty
credential is present, and no authorization header at all when it is absent —
and over an endpoint that ignores headers the snapshots and result are the
same with or without a credential: its absence is never an error. -/
theorem fetch_auth_header (token : Option String)
    (e : Nat → List (String × String) → PageResponse) (maxPages : Nat) :
    (∀ r ∈ (fetchPullRequests token e maxPages).requests,
        r.headers = buildHeaders token)
    ∧ (∀ t, token = some t → t ≠ "" →
        ("Authorization", "token " ++ t) ∈ buildHeaders token)
    ∧ (token = none → ∀ v, ("Authorization", v) ∉ buildHeaders token)
    ∧ ((∀ n h h', e n h = e n h') →
        (fetchPullRequests token e maxPages).snapshots
            = (fetchPullRequests none e maxPages).snapshots
        ∧ (fetchPullRequests token e maxPages).result
            = (fetchPullRequests none e maxPages).result) := by
  refine ⟨fun r hr => ?_, fun t ht hne => ?_, fun ht v => ?_, fun hins => ?_⟩
  · rw [fetchPullRequests_requests] at hr
    exact fetchGo_headers token e maxPages 1 [] r hr
  · subst ht
    simp [buildHeaders, hne]
  · subst ht
    simp [buildHeaders]
  · have hgo := fetchGo_token_irrelevant token e hins maxPages 1 []
    cases hres : (fetchGo none e 1 maxPages []).result with
    | error m =>
      constructor <;> simp [fetchPullRequests, hgo.1, hgo.2, hres]
    | ok fi =>
      constructor <;> simp [fetchPullRequests, hgo.1, hgo.2, hres]

/-- C8 witness: a concrete non-empty credential lands in the authorization
header, and over a header-insensitive endpoint the result is the same as
without a credential. -/
theorem fetch_auth_header_witness :
    ("Authorization", "token " ++ "tkn") ∈ buildHeaders (some "tkn")
    ∧ (fetchPullRequests (some "tkn") (fun _ _ => .ok []) 5).result
        = (fetchPullRequests none (fun _ _ => .ok []) 5).result := by
  have h := fetch_auth_header (some "tkn") (fun _ _ => .ok []) 5
  exact ⟨h.2.1 "tkn" rfl (by decide), (h.2.2.2 (fun n a b => rfl)).2⟩

/-- C1 witness: idempotence of the filter on a concrete collection. -/
theorem filterPRs_correct_witness :
    filterPRs (filterPRs [dummyPR] ["ext"]) ["ext"]
      = filterPRs [dummyPR] ["ext"] :=
  (filterPRs_correct [dummyPR] ["ext"]).2.2

/-- C2 witness: a concrete all-ok endpoint with an immediately empty page
yields the specification-side accumulator. -/
theorem fetchPullRequests_pagination_witness :
    (fetchPullRequests none (fun n _ => .ok ((fun _ => ([] : List PullRequest)) n)) 5).result
      = .ok (specAccum (fun _ => []) 1 5) :=
  (fetchPullRequests_pagination.1 none (fun _ => []) 5).2.2
